import Mathlib

/-!
Verification of the evidence-grounded hypothesis engine of the
ai-incident-investigator service.

The development shallowly embeds the algorithmic core described in
`ai-incident-investigator/DOCUMENTATION.md`: the chunker
(`_chunk_content`), the retrieval scoring loop (`search`), the strict-mode
confidence gate (pipeline STEP 5), the hypothesis-contract enforcement
(STEP 7), and the timeline ordering (STEP 1).  Machine floats are
modelled as rationals, Python strings as lists of characters, and the
reasoning oracle as an abstract attempt-indexed function.
-/

namespace Incident

/-! ## A stable insertion sort

Both the timeline ordering (events sorted by parsed timestamp, stable)
and the response assembly (hypotheses sorted by rank, ties in oracle
emission order) are stable sorts.  `sortBy` places each element before
the first already-placed element that it compares `le` to, so elements
that compare equal keep their input order. -/

def insertBy (le : α → α → Bool) (x : α) : List α → List α
  | [] => [x]
  | y :: l => if le x y then x :: y :: l else y :: insertBy le x l

def sortBy (le : α → α → Bool) : List α → List α
  | [] => []
  | x :: l => insertBy le x (sortBy le l)

theorem insertBy_perm (le : α → α → Bool) (x : α) (l : List α) :
    (insertBy le x l).Perm (x :: l) := by
  induction l with
  | nil => exact List.Perm.refl _
  | cons y l ih =>
    simp only [insertBy]
    by_cases h : le x y = true
    · simp [h]
    · simp only [h, if_neg]
      exact (ih.cons y).trans (List.Perm.swap x y l)

theorem sortBy_perm (le : α → α → Bool) (l : List α) :
    (sortBy le l).Perm l := by
  induction l with
  | nil => exact List.Perm.refl _
  | cons x l ih => exact (insertBy_perm le x (sortBy le l)).trans (ih.cons x)

theorem mem_insertBy (le : α → α → Bool) (x z : α) (l : List α) :
    z ∈ insertBy le x l ↔ z = x ∨ z ∈ l := by
  rw [(insertBy_perm le x l).mem_iff, List.mem_cons]

theorem pairwise_insertBy (le : α → α → Bool)
    (hTot : ∀ a b, le a b = true ∨ le b a = true)
    (hTrans : ∀ a b c, le a b = true → le b c = true → le a c = true)
    (x : α) (l : List α) (h : l.Pairwise (fun a b => le a b = true)) :
    (insertBy le x l).Pairwise (fun a b => le a b = true) := by
  induction l with
  | nil => simp [insertBy]
  | cons y l ih =>
    rcases List.pairwise_cons.mp h with ⟨hy, hl⟩
    simp only [insertBy]
    by_cases hxy : le x y = true
    · rw [if_pos hxy]
      refine List.pairwise_cons.mpr ⟨?_, h⟩
      intro z hz
      rcases List.mem_cons.mp hz with rfl | hz
      · exact hxy
      · exact hTrans x y z hxy (hy z hz)
    · rw [if_neg hxy]
      refine List.pairwise_cons.mpr ⟨?_, ih hl⟩
      intro z hz
      rcases (mem_insertBy le x z l).mp hz with rfl | hz
      · rcases hTot z y with h1 | h1
        · exact absurd h1 hxy
        · exact h1
      · exact hy z hz

theorem sortBy_pairwise (le : α → α → Bool)
    (hTot : ∀ a b, le a b = true ∨ le b a = true)
    (hTrans : ∀ a b c, le a b = true → le b c = true → le a c = true)
    (l : List α) :
    (sortBy le l).Pairwise (fun a b => le a b = true) := by
  induction l with
  | nil => simp [sortBy]
  | cons x l ih => exact pairwise_insertBy le hTot hTrans x (sortBy le l) ih

theorem filter_insertBy_pos (le : α → α → Bool) (p : α → Bool) (x : α)
    (hx : p x = true) (hall : ∀ y, p y = true → le x y = true) (l : List α) :
    (insertBy le x l).filter p = x :: l.filter p := by
  induction l with
  | nil => simp [insertBy, hx]
  | cons y l ih =>
    simp only [insertBy]
    by_cases hxy : le x y = true
    · simp [hxy, hx]
    · rcases hpy : p y with _ | _
      · simp [hxy, List.filter_cons, hpy, ih]
      · exact absurd (hall y hpy) hxy

theorem filter_insertBy_neg (le : α → α → Bool) (p : α → Bool) (x : α)
    (hx : p x = false) (l : List α) :
    (insertBy le x l).filter p = l.filter p := by
  induction l with
  | nil => simp [insertBy, hx]
  | cons y l ih =>
    simp only [insertBy]
    by_cases hxy : le x y = true
    · simp [hxy, List.filter_cons, hx]
    · simp [hxy, List.filter_cons, ih]

theorem filter_sortBy (le : α → α → Bool) (p : α → Bool)
    (hcong : ∀ a b, p a = true → p b = true → le a b = true) (l : List α) :
    (sortBy le l).filter p = l.filter p := by
  induction l with
  | nil => rfl
  | cons x l ih =>
    simp only [sortBy]
    rcases hx : p x with _ | _
    · rw [filter_insertBy_neg le p x hx, ih, List.filter_cons, hx]
      simp
    · rw [filter_insertBy_pos le p x hx (fun y hy => hcong x y hx hy), ih,
        List.filter_cons, hx]
      simp

/-! ## Data model

Records follow the data model of the documentation and spec section 3.
Relevance and confidence scores (Python floats) are modelled as
rationals; text is carried as `String` or `List Char`. -/

structure Evidence where
  source_id : String
  excerpt : List Char
  relevance : ℚ
  artifact_type : String
deriving DecidableEq

structure TimelineEvent where
  timestamp : Option ℕ
  raw_timestamp : String
  kind : String
  title : String
  details : String
  severity : String
deriving DecidableEq

structure RawHit where
  id : String
  document : List Char
  source_id : String
  artifact_type : String
  distance : ℚ
deriving DecidableEq

structure OracleHypothesis where
  rank : ℕ
  title : String
  root_cause : String
  confidence : ℚ
  evidence_indices : List ℕ
  counter_evidence_indices : List ℕ
  tests_to_confirm : List String
  immediate_mitigations : List String
  long_term_fixes : List String
deriving DecidableEq

structure OracleResponse where
  hypotheses : List OracleHypothesis
  what_changed : List String
  recommended_next_steps : List String
  confidence_overall : ℚ
  refusal_reason : Option String
deriving DecidableEq

structure Hypothesis where
  rank : ℕ
  title : String
  root_cause : String
  confidence : ℚ
  evidence : List Evidence
  counter_evidence : List Evidence
  tests_to_confirm : List String
  immediate_mitigations : List String
  long_term_fixes : List String
deriving DecidableEq

structure AnalysisResult where
  timeline_events : List TimelineEvent
  hypotheses : List Hypothesis
  what_changed : List String
  recommended_next_steps : List String
  confidence_overall : ℚ
  refusal_reason : Option String
deriving DecidableEq

/-! ## Retrieval (`search` in the Vector Store section)

The scoring loop of `search` turns each raw query hit into an
`Evidence`: the excerpt is the document truncated to 300 characters and
the relevance is the cosine distance converted to similarity and
clamped, literally `max(0, min(1, 1 - distance))`. -/

def search (hits : List RawHit) : List Evidence :=
  hits.map fun h =>
    { source_id := h.source_id
      excerpt := h.document.take 300
      relevance := max 0 (min 1 (1 - h.distance))
      artifact_type := h.artifact_type }

/-- Modelled from the spec: pipeline STEP 4 computes
`avg_relevance = mean(evidence.relevance)`.  The Python mean of an empty
list raises, so the embedding returns `none` there and the arithmetic
mean otherwise. -/
def meanOpt (l : List ℚ) : Option ℚ :=
  match l with
  | [] => none
  | _ => some (l.sum / (l.length : ℚ))

/-! ## Timeline ordering (pipeline STEP 1) -/

/-- Comparison used to order timeline events: parsed timestamps
ascending, events without a parseable timestamp after every dated
event. -/
def tsLe : Option ℕ → Option ℕ → Bool
  | _, none => true
  | none, some _ => false
  | some a, some b => decide (a ≤ b)

/-- Modelled from the spec: pipeline STEP 1 sorts the parsed events by
timestamp (`all_events.sort(by=timestamp)`), keeping events without a
parseable timestamp, ordered last, and preserving source order between
equal keys (a stable sort). -/
def sortTimeline (events : List TimelineEvent) : List TimelineEvent :=
  sortBy (fun a b => tsLe a.timestamp b.timestamp) events

/-! ## Hypothesis contract enforcement and response assembly (STEP 7) -/

/-- Modelled from the spec: the output contract of the reasoning oracle
is strictly enforced; a structurally valid response has every confidence
value in `[0,1]` and every rank at least 1. -/
def schemaValid (r : OracleResponse) : Bool :=
  (decide (0 ≤ r.confidence_overall) && decide (r.confidence_overall ≤ 1)) &&
  r.hypotheses.all fun h =>
    decide (1 ≤ h.rank) && (decide (0 ≤ h.confidence) && decide (h.confidence ≤ 1))

/-- Modelled from the spec: a hypothesis is kept only when it cites at
least two local evidence indices, all inside the packaged range
`0..k-1`; otherwise it is dropped rather than repaired. -/
def citesValid (k : ℕ) (h : OracleHypothesis) : Bool :=
  decide (2 ≤ h.evidence_indices.length) && h.evidence_indices.all (fun i => decide (i < k))

/-- Resolves the oracle-returned local indices of one hypothesis into
concrete `Evidence` objects. -/
def resolveHypothesis (ev : List Evidence) (h : OracleHypothesis) : Hypothesis :=
  { rank := h.rank
    title := h.title
    root_cause := h.root_cause
    confidence := h.confidence
    evidence := h.evidence_indices.filterMap ev.get?
    counter_evidence := h.counter_evidence_indices.filterMap ev.get?
    tests_to_confirm := h.tests_to_confirm
    immediate_mitigations := h.immediate_mitigations
    long_term_fixes := h.long_term_fixes }

/-- Modelled from the spec: STEP 7 maps evidence indices to `Evidence`
objects, drops hypotheses that fail the citation contract, and
stable-sorts the survivors by rank. -/
def assembleResponse (timeline : List TimelineEvent) (ev : List Evidence)
    (resp : OracleResponse) : AnalysisResult :=
  { timeline_events := timeline
    hypotheses :=
      sortBy (fun a b => decide (a.rank ≤ b.rank))
        ((resp.hypotheses.filter (citesValid ev.length)).map (resolveHypothesis ev))
    what_changed := resp.what_changed
    recommended_next_steps := resp.recommended_next_steps
    confidence_overall := resp.confidence_overall
    refusal_reason := resp.refusal_reason }

/-- The refusal result of the strict-mode gate (pipeline STEP 5):
empty hypotheses, a human-readable refusal reason, generic
data-collection guidance, and `confidence_overall = avg_relevance`. -/
def refusalResult (timeline : List TimelineEvent) (avg : ℚ) : AnalysisResult :=
  { timeline_events := timeline
    hypotheses := []
    what_changed := []
    recommended_next_steps :=
      ["Collect more logs from the affected services",
       "Gather deploy history for the incident window"]
    confidence_overall := avg
    refusal_reason := some "Insufficient evidence to generate grounded hypotheses" }

/-- Modelled from the spec: when the oracle output fails the contract
twice, the pipeline degrades to a refusal-shaped result rather than
surfacing fabricated content. -/
def schemaFailureResult (timeline : List TimelineEvent) (avg : ℚ) : AnalysisResult :=
  { timeline_events := timeline
    hypotheses := []
    what_changed := []
    recommended_next_steps :=
      ["Collect more logs from the affected services",
       "Gather deploy history for the incident window"]
    confidence_overall := avg
    refusal_reason := some "Reasoning oracle returned schema-invalid output twice" }

/-- Modelled from the spec: on a schema-invalid oracle response the call
is retried once; a second invalid response yields no usable response.
The oracle is an abstract attempt-indexed function. -/
def callWithRetry (oracle : ℕ → OracleResponse) : Option OracleResponse :=
  if schemaValid (oracle 0) then some (oracle 0)
  else if schemaValid (oracle 1) then some (oracle 1)
  else none

/-- Modelled from the spec: the analysis pipeline (STEP 1 to STEP 7 of
the documentation), shared by `analyze` and `rerun` (a rerun re-executes
exactly this retrieval, gate, generation and assembly sequence on its
constrained inputs).  `events` are the parsed artifact events in
ingestion order, `hits` the raw similarity hits for the built query,
`thr` the confidence threshold (default 0.6), `strict` the strict-mode
flag, and `oracle` the abstract reasoning oracle.  `none` models the
uncaught error of taking the mean of an empty evidence list. -/
def analyze (events : List TimelineEvent) (hits : List RawHit) (thr : ℚ)
    (strict : Bool) (oracle : ℕ → OracleResponse) : Option AnalysisResult :=
  let timeline := sortTimeline events
  let evidence := search hits
  match meanOpt (evidence.map Evidence.relevance) with
  | none => none
  | some avg =>
    if strict && (decide (evidence.length < 2) || decide (avg < thr)) then
      some (refusalResult timeline avg)
    else
      match callWithRetry oracle with
      | some resp => some (assembleResponse timeline evidence resp)
      | none => some (schemaFailureResult timeline avg)

/-! ## Chunker (`_chunk_content` in the Vector Store section)

The Python loop is embedded with the string as a `List Char`.  Python
`str.rfind` returns the greatest index of the character, embedded as an
`Option ℕ` converted to the Python `-1` convention by `optToInt`.  Each
loop iteration is recorded as a `ChunkRec` carrying the loop variables:
`start`, the final value of the loop variable `end` (`rawStop`, used to
compute the next start), the end of the text actually taken from the
content (`stop`, which clamps `rawStop` to the content length exactly as
Python slicing does), and the emitted stripped text. -/

/-- Greatest index of the list holding an element satisfying `p`, or
`none` when there is none. -/
def rlast (p : α → Bool) : List α → Option ℕ
  | [] => none
  | x :: xs =>
    match rlast p xs with
    | some i => some (i + 1)
    | none => if p x then some 0 else none

/-- Python `str.rfind(c)`: the greatest index holding the character
`c`. -/
def pyRfind (c : Char) : List Char → Option ℕ :=
  rlast fun x => x = c

def optToInt : Option ℕ → Int
  | none => -1
  | some i => (i : Int)

def isSpace (c : Char) : Bool :=
  c = ' ' || c = '\n' || c = '\t' || c = '\r'

/-- Python `str.strip`: whitespace removed from both ends. -/
def strip (l : List Char) : List Char :=
  ((l.dropWhile isSpace).reverse.dropWhile isSpace).reverse

structure ChunkRec where
  start : ℕ
  stop : ℕ
  rawStop : ℕ
  text : List Char
deriving DecidableEq

/-- One iteration of the `_chunk_content` loop body at position
`start`: take `content[start : start + chunk_size]`, and when the hard
boundary falls strictly inside the content, pull it back to
`max(chunk.rfind('.'), chunk.rfind('\n'))` whenever that break point
lies strictly past `chunk_size // 2`. -/
def chunkStep (content : List Char) (chunk_size start : ℕ) : ChunkRec :=
  let e := start + chunk_size
  let chunk := (content.drop start).take chunk_size
  if e < content.length then
    let break_point := max (optToInt (pyRfind '.' chunk)) (optToInt (pyRfind '\n' chunk))
    if ((chunk_size / 2 : ℕ) : Int) < break_point then
      { start := start
        stop := start + break_point.toNat + 1
        rawStop := start + break_point.toNat + 1
        text := strip (chunk.take (break_point.toNat + 1)) }
    else
      { start := start, stop := e, rawStop := e, text := strip chunk }
  else
    { start := start, stop := min e content.length, rawStop := e, text := strip chunk }

/-- The `while start < len(content)` loop of `_chunk_content`, with an
explicit fuel bound on the number of iterations; `chunk_content` runs it
with fuel `len(content) + 1`, which suffices for every terminating
parameter choice (see the termination theorem). -/
def chunkLoop (content : List Char) (chunk_size overlap : ℕ) : ℕ → ℕ → List ChunkRec
  | 0, _ => []
  | fuel + 1, start =>
    if start < content.length then
      let r := chunkStep content chunk_size start
      r :: chunkLoop content chunk_size overlap fuel (r.rawStop - overlap)
    else []

/-- The function `_chunk_content(content, chunk_size=500, overlap=50)`:
the list of stripped chunks appended by the loop. -/
def chunk_content (content : List Char) (chunk_size : ℕ := 500) (overlap : ℕ := 50) :
    List (List Char) :=
  (chunkLoop content chunk_size overlap (content.length + 1) 0).map ChunkRec.text

/-- A sentence terminator in the sense of the boundary adjustment: a
period or a line break. -/
def isTerminator (c : Char) : Bool :=
  c = '.' || c = '\n'

/-- The position of the last sentence terminator or line break in a
chunk (the greatest index holding such a character), used to state the
boundary-adjustment rule. -/
def lastSentenceBreak : List Char → Option ℕ :=
  rlast isTerminator

/-- Sum of the span lengths of the recorded chunk iterations. -/
def spanLenSum (rs : List ChunkRec) : ℕ :=
  (rs.map (fun r => r.stop - r.start)).sum

/-- Total length of the overlapping regions between consecutive
recorded chunk spans. -/
def overlapSum : List ChunkRec → ℕ
  | a :: b :: t => (a.stop - b.start) + overlapSum (b :: t)
  | _ => 0

/-! ### Characterisation of `rlast` -/

theorem rlast_lt_length (p : α → Bool) (l : List α) (i : ℕ)
    (h : rlast p l = some i) : i < l.length := by
  induction l generalizing i with
  | nil => simp [rlast] at h
  | cons x xs ih =>
    rcases hxs : rlast p xs with _ | j
    · simp only [rlast, hxs] at h
      by_cases hx : p x = true
      · rw [if_pos hx] at h
        simp only [Option.some.injEq] at h
        simp [← h]
      · rw [if_neg hx] at h
        exact absurd h (by simp)
    · simp only [rlast, hxs, Option.some.injEq] at h
      have := ih j hxs
      simp only [List.length_cons]
      omega

theorem rlast_get (p : α → Bool) (l : List α) (i : ℕ)
    (h : rlast p l = some i) : ∃ a, l.get? i = some a ∧ p a = true := by
  induction l generalizing i with
  | nil => simp [rlast] at h
  | cons x xs ih =>
    rcases hxs : rlast p xs with _ | j
    · simp only [rlast, hxs] at h
      by_cases hx : p x = true
      · rw [if_pos hx] at h
        simp only [Option.some.injEq] at h
        exact ⟨x, by simp [← h], hx⟩
      · rw [if_neg hx] at h
        exact absurd h (by simp)
    · simp only [rlast, hxs, Option.some.injEq] at h
      rcases ih j hxs with ⟨a, ha, hpa⟩
      exact ⟨a, by simp [← h]; simpa using ha, hpa⟩

theorem rlast_none (p : α → Bool) (l : List α)
    (h : rlast p l = none) : ∀ j a, l.get? j = some a → p a = false := by
  induction l with
  | nil => intro j a ha; simp at ha
  | cons x xs ih =>
    rcases hxs : rlast p xs with _ | j
    · simp only [rlast, hxs] at h
      by_cases hx : p x = true
      · rw [if_pos hx] at h
        exact absurd h (by simp)
      · intro j a ha
        match j with
        | 0 =>
          simp only [List.get?] at ha
          simp only [Option.some.injEq] at ha
          subst ha
          simpa using hx
        | j + 1 => exact ih hxs j a (by simpa using ha)
    · simp only [rlast, hxs] at h
      exact absurd h (by simp)

theorem rlast_maximal (p : α → Bool) (l : List α) (i : ℕ)
    (h : rlast p l = some i) : ∀ j a, i < j → l.get? j = some a → p a = false := by
  induction l generalizing i with
  | nil => simp [rlast] at h
  | cons x xs ih =>
    rcases hxs : rlast p xs with _ | j
    · simp only [rlast, hxs] at h
      by_cases hx : p x = true
      · rw [if_pos hx] at h
        simp only [Option.some.injEq] at h
        intro k a hk ha
        match k with
        | 0 => omega
        | k + 1 => exact rlast_none p xs hxs k a (by simpa using ha)
      · rw [if_neg hx] at h
        exact absurd h (by simp)
    · simp only [rlast, hxs, Option.some.injEq] at h
      intro k a hk ha
      match k with
      | 0 => omega
      | k + 1 => exact ih j hxs k a (by omega) (by simpa using ha)

/-- Merging the two character searches of the chunker: the last
position holding a terminator is the larger of the last period position
and the last newline position. -/
theorem lastSentenceBreak_eq_merge (l : List Char) :
    lastSentenceBreak l =
      (match pyRfind '.' l, pyRfind '\n' l with
       | none, none => none
       | some i, none => some i
       | none, some j => some j
       | some i, some j => some (max i j)) := by
  induction l with
  | nil => rfl
  | cons x xs ih =>
    simp only [lastSentenceBreak, pyRfind] at ih ⊢
    rcases hd : rlast (fun x => decide (x = '.')) xs with _ | i <;>
      rcases hn : rlast (fun x => decide (x = '\n')) xs with _ | j <;>
        rw [hd, hn] at ih <;>
          simp only [] at ih <;>
            simp only [rlast, hd, hn, ih, isTerminator] <;>
              by_cases hx1 : x = '.' <;> by_cases hx2 : x = '\n' <;>
                simp [hx1, hx2] <;> omega

/-- The Python break point `max(chunk.rfind('.'), chunk.rfind('\n'))`
is exactly the position of the last sentence terminator or line
break. -/
theorem breakPoint_eq_lastSentenceBreak (l : List Char) :
    max (optToInt (pyRfind '.' l)) (optToInt (pyRfind '\n' l))
      = optToInt (lastSentenceBreak l) := by
  rw [lastSentenceBreak_eq_merge l]
  rcases pyRfind '.' l with _ | i <;> rcases pyRfind '\n' l with _ | j <;>
    simp only [optToInt]
  · simp
  · omega
  · omega
  · simp [Nat.cast_max]

/-! ### Facts about one chunker iteration -/

theorem chunkStep_facts (content : List Char) (cs start : ℕ)
    (h1 : 0 < cs) (hs : start < content.length) :
    (chunkStep content cs start).start = start
    ∧ start < (chunkStep content cs start).stop
    ∧ (chunkStep content cs start).stop ≤ content.length
    ∧ (chunkStep content cs start).stop ≤ (chunkStep content cs start).rawStop
    ∧ start + (cs / 2 + 1) ≤ (chunkStep content cs start).rawStop
    ∧ (content.length ≤ (chunkStep content cs start).rawStop →
        (chunkStep content cs start).stop = content.length)
    ∧ ((chunkStep content cs start).rawStop = (chunkStep content cs start).stop
        ∨ (chunkStep content cs start).stop = content.length) := by
  have hdiv : cs / 2 < cs := Nat.div_lt_self h1 one_lt_two
  have hlen : ((content.drop start).take cs).length = min cs (content.length - start) := by
    simp
  simp only [chunkStep]
  split_ifs with he hbp
  · rw [breakPoint_eq_lastSentenceBreak] at hbp
    rcases hlsb : lastSentenceBreak ((content.drop start).take cs) with _ | i
    · rw [hlsb] at hbp
      simp only [optToInt] at hbp
      exact absurd hbp (by omega)
    · rw [hlsb] at hbp
      have hi : i < ((content.drop start).take cs).length := rlast_lt_length _ _ _ hlsb
      rw [hlen] at hi
      simp only [optToInt] at hbp
      have hbp' : cs / 2 < i := by exact_mod_cast hbp
      rw [breakPoint_eq_lastSentenceBreak, hlsb]
      rw [lt_min_iff] at hi
      simp only [optToInt, Int.toNat_natCast]
      refine ⟨?_, ?_, ?_, ?_, ?_, ?_, ?_⟩ <;> first | trivial | omega | exact Or.inl (by trivial)
  · dsimp only
    refine ⟨?_, ?_, ?_, ?_, ?_, ?_, ?_⟩ <;> first | trivial | omega
  · dsimp only
    have hm : min (start + cs) content.length = content.length :=
      min_eq_right (by omega)
    rw [hm]
    refine ⟨?_, ?_, ?_, ?_, ?_, ?_, ?_⟩ <;> first | trivial | omega

theorem chunkStep_start_eq (content : List Char) (cs start : ℕ) :
    (chunkStep content cs start).start = start := by
  simp only [chunkStep]
  split_ifs <;> rfl

/-! ### The chunker loop -/

theorem chunkLoop_nil (content : List Char) (cs ov fuel start : ℕ)
    (h : content.length ≤ start) : chunkLoop content cs ov fuel start = [] := by
  cases fuel with
  | zero => rfl
  | succ f => simp [chunkLoop, Nat.not_lt.mpr h]

theorem chunkLoop_fuel_irrel (content : List Char) (cs ov : ℕ)
    (h1 : 0 < cs) (h2 : ov ≤ cs / 2) :
    ∀ f g start, content.length - start < f → content.length - start < g →
      chunkLoop content cs ov f start = chunkLoop content cs ov g start := by
  intro f
  induction f with
  | zero => intro g start hf hg; omega
  | succ f ih =>
    intro g start hf hg
    rcases g with _ | g
    · omega
    by_cases hs : start < content.length
    · have hfacts := chunkStep_facts content cs start h1 hs
      simp only [chunkLoop, if_pos hs]
      refine congrArg _ ?_
      exact ih g ((chunkStep content cs start).rawStop - ov) (by omega) (by omega)
    · simp [chunkLoop, hs]

theorem chunkLoop_reconstruct (content : List Char) (cs ov : ℕ)
    (h1 : 0 < cs) (h2 : ov ≤ cs / 2) :
    ∀ fuel start, content.length - start < fuel → start ≤ content.length →
      spanLenSum (chunkLoop content cs ov fuel start) + start
        = content.length + overlapSum (chunkLoop content cs ov fuel start) := by
  intro fuel
  induction fuel with
  | zero => intro start hf hs; omega
  | succ f ih =>
    intro start hf hs
    by_cases hlt : start < content.length
    · have hfacts := chunkStep_facts content cs start h1 hlt
      simp only [chunkLoop, if_pos hlt]
      set r := chunkStep content cs start with hr
      obtain ⟨hq1, hq2, hq3, hq4, hq5, hq6, hq7⟩ := hfacts
      by_cases hnext : r.rawStop - ov < content.length
      · have htail := ih (r.rawStop - ov) (by omega) (by omega)
        obtain ⟨f', rfl⟩ : ∃ f', f = f' + 1 := ⟨f - 1, by omega⟩
        simp only [chunkLoop, if_pos hnext] at htail ⊢
        simp only [spanLenSum, overlapSum, List.map_cons, List.sum_cons,
          chunkStep_start_eq] at htail ⊢
        rcases hq7 with hq7 | hq7 <;> omega
      · rw [chunkLoop_nil content cs ov f (r.rawStop - ov) (by omega)]
        have hstop : r.stop = content.length := hq6 (by omega)
        simp only [spanLenSum, overlapSum, List.map_cons, List.sum_cons, List.map_nil,
          List.sum_nil]
        omega
    · rw [chunkLoop_nil content cs ov (f + 1) start (by omega)]
      simp only [spanLenSum, overlapSum, List.map_nil, List.sum_nil]
      omega

/-! ### Order lemmas for the timeline comparison -/

theorem tsLe_total (a b : Option ℕ) : tsLe a b = true ∨ tsLe b a = true := by
  rcases a with _ | a <;> rcases b with _ | b <;> simp [tsLe] <;> omega

theorem tsLe_trans (a b c : Option ℕ) (h1 : tsLe a b = true) (h2 : tsLe b c = true) :
    tsLe a c = true := by
  rcases a with _ | a <;> rcases b with _ | b <;> rcases c with _ | c <;>
    simp [tsLe] at h1 h2 ⊢ <;> omega

theorem tsLe_refl (a : Option ℕ) : tsLe a a = true := by
  rcases a with _ | a <;> simp [tsLe]

/-- Resolving all indices of a hypothesis that are in range yields one
evidence object per index. -/
theorem filterMap_get_length (l : List Evidence) (idxs : List ℕ)
    (h : ∀ i ∈ idxs, i < l.length) :
    (idxs.filterMap l.get?).length = idxs.length := by
  induction idxs with
  | nil => rfl
  | cons i idxs ih =>
    have hi : i < l.length := h i (by simp)
    rcases hg : l.get? i with _ | a
    · rw [List.get?_eq_none] at hg
      omega
    · simp only [List.filterMap_cons, hg, List.length_cons]
      rw [ih fun j hj => h j (by simp [hj])]

/-! ## Claim theorems -/

/-- Claim C6: for every list of parsed events, the timeline ordering
returns a permutation of the input (no event is dropped) that is sorted
by the timeline comparison — parsed timestamps ascending with
unparseable timestamps after every dated event — and, for every
timestamp key, the events carrying that key (including the key `none`
of unparseable timestamps) appear in exactly their source order. -/
theorem timeline_order_spec (l : List TimelineEvent) :
    (sortTimeline l).Perm l
    ∧ (sortTimeline l).Pairwise (fun a b => tsLe a.timestamp b.timestamp = true)
    ∧ ∀ k : Option ℕ,
        (sortTimeline l).filter (fun e => decide (e.timestamp = k))
          = l.filter (fun e => decide (e.timestamp = k)) := by
  refine ⟨sortBy_perm _ l, ?_, ?_⟩
  · exact sortBy_pairwise _ (fun a b => tsLe_total a.timestamp b.timestamp)
      (fun a b c => tsLe_trans a.timestamp b.timestamp c.timestamp) l
  · intro k
    refine filter_sortBy _ _ ?_ l
    intro a b ha hb
    simp only [decide_eq_true_eq] at ha hb
    rw [ha, hb]
    exact tsLe_refl k

/-- Claim C4: every evidence item produced by the retrieval scoring
loop carries relevance `max 0 (min 1 (1 - distance))` for the cosine
distance of its originating hit, and is therefore clamped into
`[0, 1]`. -/
theorem relevance_clamped (hits : List RawHit) (e : Evidence) (he : e ∈ search hits) :
    (0 ≤ e.relevance ∧ e.relevance ≤ 1)
    ∧ ∃ h ∈ hits, e.relevance = max 0 (min 1 (1 - h.distance)) := by
  simp only [search, List.mem_map] at he
  obtain ⟨h, hh, rfl⟩ := he
  refine ⟨⟨le_max_left 0 _, max_le (by norm_num) (min_le_left 1 _)⟩, h, hh, rfl⟩

def noiseHit : RawHit :=
  { id := "m1", document := "cpu 99".toList, source_id := "metrics-exporter"
    artifact_type := "metrics", distance := 3/2 }

def noiseEvidence : Evidence :=
  { source_id := "metrics-exporter", excerpt := "cpu 99".toList.take 300
    relevance := max 0 (min 1 (1 - (3/2 : ℚ))), artifact_type := "metrics" }

/-- Witness for C4 at a hit whose cosine distance exceeds 1, so the raw
similarity is negative and the clamp takes effect. -/
theorem relevance_clamped_witness :
    (0 ≤ noiseEvidence.relevance ∧ noiseEvidence.relevance ≤ 1)
    ∧ ∃ h ∈ [noiseHit], noiseEvidence.relevance = max 0 (min 1 (1 - h.distance)) :=
  relevance_clamped [noiseHit] noiseEvidence
    (by simp [search, noiseHit, noiseEvidence])

/-- Claim C7: whenever the hard chunk boundary `start + chunk_size`
falls strictly before the end of the content, the iteration ends the
chunk at `start + i + 1` for `i` the position of the last sentence
terminator or line break in the chunk, but only when `i` lies strictly
past `chunk_size / 2`; otherwise it keeps the hard boundary
`start + chunk_size`.  The accompanying conjuncts certify that
`lastSentenceBreak` really is the greatest in-chunk position holding a
period or line break. -/
theorem chunk_boundary_rule (content : List Char) (cs start : ℕ)
    (h : start + cs < content.length) :
    ((chunkStep content cs start).stop =
      match lastSentenceBreak ((content.drop start).take cs) with
      | some i => if cs / 2 < i then start + i + 1 else start + cs
      | none => start + cs)
    ∧ (∀ i, lastSentenceBreak ((content.drop start).take cs) = some i →
        ∃ c, ((content.drop start).take cs).get? i = some c ∧ isTerminator c = true)
    ∧ (∀ i j c, lastSentenceBreak ((content.drop start).take cs) = some i → i < j →
        ((content.drop start).take cs).get? j = some c → isTerminator c = false)
    ∧ (lastSentenceBreak ((content.drop start).take cs) = none →
        ∀ j c, ((content.drop start).take cs).get? j = some c → isTerminator c = false) := by
  refine ⟨?_, ?_, ?_, ?_⟩
  · simp only [chunkStep, if_pos h]
    rw [breakPoint_eq_lastSentenceBreak]
    rcases lastSentenceBreak ((content.drop start).take cs) with _ | i
    · simp only [optToInt]
      rw [if_neg (by omega)]
    · simp only [optToInt]
      by_cases hc : cs / 2 < i
      · rw [if_pos (by exact_mod_cast hc), if_pos hc]
        simp [Int.toNat_natCast]
      · rw [if_neg (by exact_mod_cast hc), if_neg hc]
  · intro i hi
    exact rlast_get _ _ _ hi
  · intro i j c hi hij hj
    exact rlast_maximal _ _ _ hi j c hij hj
  · intro hn j c hj
    exact rlast_none _ _ hn j c hj

/-- Witness for C7: in content `abc.xyz` with chunk size 5, the chunk
is `abc.x`, the last terminator sits at index 3 which is strictly past
`5 / 2 = 2`, and the boundary is pulled back to position 4. -/
theorem chunk_boundary_rule_witness :
    (chunkStep ['a', 'b', 'c', '.', 'x', 'y', 'z'] 5 0).stop =
      match lastSentenceBreak (((['a', 'b', 'c', '.', 'x', 'y', 'z'] : List Char).drop 0).take 5) with
      | some i => if 5 / 2 < i then 0 + i + 1 else 0 + 5
      | none => 0 + 5 :=
  (chunk_boundary_rule ['a', 'b', 'c', '.', 'x', 'y', 'z'] 5 0 (by decide)).1

/-- Claim C8 counterexample: on content `"a "` (no sentence terminator
or line break anywhere, hence no boundary adjustment and zero
adjustment tolerance), the chunker emits the single chunk `"a"`, whose
length 1 — with no overlapping regions to subtract — differs from the
content length 2: the emitted chunks are whitespace-stripped, so their
summed lengths do not reconstruct the content length. -/
theorem chunk_length_counterexample :
    chunk_content ['a', ' '] 500 50 = [['a']]
    ∧ (['a', ' '].all fun c => !isTerminator c) = true
    ∧ ((chunk_content ['a', ' '] 500 50).map List.length).sum ≠ (['a', ' '] : List Char).length := by
  refine ⟨?_, ?_, ?_⟩ <;> decide

/-- Claim C8 (amended): the chunk spans traversed by the loop — the
regions `[start, stop)` of the content before whitespace stripping —
reconstruct the content exactly: the sum of the span lengths equals the
content length plus the total length of the overlapping regions between
consecutive spans, with no tolerance term even in the presence of
sentence-boundary adjustment.  The emitted chunks are the stripped
texts of exactly these spans. -/
theorem chunk_spans_reconstruct (content : List Char) (cs ov : ℕ)
    (h1 : 0 < cs) (h2 : ov ≤ cs / 2) :
    spanLenSum (chunkLoop content cs ov (content.length + 1) 0)
      = content.length + overlapSum (chunkLoop content cs ov (content.length + 1) 0)
    ∧ chunk_content content cs ov
        = (chunkLoop content cs ov (content.length + 1) 0).map ChunkRec.text := by
  refine ⟨?_, rfl⟩
  have h := chunkLoop_reconstruct content cs ov h1 h2 (content.length + 1) 0
    (by omega) (by omega)
  omega

/-- Witness for the amended C8 on the counterexample content: the span
identity holds there (span length 2 equals content length 2) even
though the stripped chunk lengths do not. -/
theorem chunk_spans_reconstruct_witness :
    spanLenSum (chunkLoop ['a', ' '] 500 50 ((['a', ' '] : List Char).length + 1) 0)
      = (['a', ' '] : List Char).length
        + overlapSum (chunkLoop ['a', ' '] 500 50 ((['a', ' '] : List Char).length + 1) 0) :=
  (chunk_spans_reconstruct ['a', ' '] 500 50 (by decide) (by decide)).1

/-- Claim C10: with overlap strictly below half the chunk size (the
default parameters are 500 and 50), every iteration of the chunking
loop advances the loop variable: the recorded `end` value is at least
`start + chunk_size / 2 + 1`, so the next start gains at least
`chunk_size / 2 + 1 - overlap > 0`; consequently the loop terminates on
every input, witnessed by the fuel bound `content.length + 1` being
stable under any larger fuel. -/
theorem chunk_terminates (content : List Char) (cs ov : ℕ) (h : ov < cs / 2) :
    (∀ fuel, content.length + 1 ≤ fuel →
       chunkLoop content cs ov fuel 0 = chunkLoop content cs ov (content.length + 1) 0)
    ∧ (∀ start, start < content.length →
         start + (cs / 2 + 1) ≤ (chunkStep content cs start).rawStop)
    ∧ 0 < cs / 2 + 1 - ov := by
  have h1 : 0 < cs := by omega
  refine ⟨?_, ?_, by omega⟩
  · intro fuel hf
    exact chunkLoop_fuel_irrel content cs ov h1 (by omega) fuel (content.length + 1) 0
      (by omega) (by omega)
  · intro start hs
    exact (chunkStep_facts content cs start h1 hs).2.2.2.2.1

/-- Witness for C10 at the default parameters 500 and 50: on a concrete
content, any surplus fuel computes the same chunk list as the fuel
bound `content.length + 1`. -/
theorem chunk_terminates_witness :
    chunkLoop ['a', 'b'] 500 50 10 0
      = chunkLoop ['a', 'b'] 500 50 ((['a', 'b'] : List Char).length + 1) 0 :=
  (chunk_terminates ['a', 'b'] 500 50 (by decide)).1 10 (by decide)

/-! ### Concrete pipeline scenarios used by witnesses and proofs -/

/-- A schema-valid oracle response with no hypotheses and no refusal,
used to probe whether the pipeline consults the oracle at all. -/
def nullResponse : OracleResponse :=
  { hypotheses := [], what_changed := [], recommended_next_steps := []
    confidence_overall := 0, refusal_reason := none }

theorem schemaValid_null : schemaValid nullResponse = true := by
  simp [schemaValid, nullResponse]

theorem callWithRetry_null :
    callWithRetry (fun _ => nullResponse) = some nullResponse := by
  simp [callWithRetry, schemaValid_null]

def perfectHit : RawHit :=
  { id := "c0", document := "ERROR timeout acquiring connection".toList
    source_id := "api-gateway", artifact_type := "logs", distance := 0 }

def logHitA : RawHit :=
  { id := "c1", document := "ERROR failed to acquire database connection".toList
    source_id := "order-service", artifact_type := "logs", distance := 1/5 }

def logHitB : RawHit :=
  { id := "c2", document := "Deployed version v2.4.0".toList
    source_id := "argocd", artifact_type := "deploy_history", distance := 2/5 }

/-- Claim C1: with `strict_mode = true` and the average relevance `avg`
of the retrieved evidence defined, the pipeline short-circuits into the
gate refusal result for every possible oracle — refusing before
generation — exactly when the evidence count is strictly below 2 or
`avg` is strictly below the threshold; at an average exactly equal to
the threshold, or an evidence count exactly 2 (with the other condition
not strictly below), generation proceeds.  `rerun` re-executes this
same pipeline, so the equivalence covers it as well. -/
theorem strict_gate_iff (events : List TimelineEvent) (hits : List RawHit) (thr avg : ℚ)
    (hm : meanOpt ((search hits).map Evidence.relevance) = some avg) :
    (∀ oracle, analyze events hits thr true oracle
        = some (refusalResult (sortTimeline events) avg))
      ↔ ((search hits).length < 2 ∨ avg < thr) := by
  constructor
  · intro hall
    by_contra hg
    push_neg at hg
    obtain ⟨hcount, hthr⟩ := hg
    have h := hall (fun _ => nullResponse)
    have hcond : (decide ((search hits).length < 2) || decide (avg < thr)) = false := by
      rw [Bool.or_eq_false_iff]
      exact ⟨decide_eq_false (by omega), decide_eq_false (not_lt.mpr hthr)⟩
    simp only [analyze, hm, Bool.true_and, hcond, if_false, Bool.false_eq_true,
      callWithRetry_null] at h
    have h2 := congrArg AnalysisResult.refusal_reason (Option.some.inj h)
    simp [assembleResponse, refusalResult, nullResponse] at h2
  · intro hg oracle
    have hcond : (decide ((search hits).length < 2) || decide (avg < thr)) = true := by
      rcases hg with hg | hg
      · rw [decide_eq_true hg]
        simp
      · rw [decide_eq_true hg]
        simp
    simp only [analyze, hm, Bool.true_and, hcond, if_true]

/-- Witness for C1: a single retrieved evidence item with perfect
relevance 1 still trips the gate in strict mode, because the count 1 is
strictly below 2; the result is the refusal result for every oracle,
here instantiated at the null oracle. -/
theorem strict_gate_iff_witness :
    analyze [] [perfectHit] (3/5) true (fun _ => nullResponse)
      = some (refusalResult (sortTimeline []) 1) :=
  ((strict_gate_iff [] [perfectHit] (3/5) 1
      (by norm_num [meanOpt, search, perfectHit, max_def, min_def])).mpr
    (Or.inl (by norm_num [search]))) (fun _ => nullResponse)

/-- Claim C9: on a case whose retrieval returns no evidence, the
pipeline reaches the mean of an empty relevance list before the
confidence gate is consulted, in strict and non-strict mode alike: the
embedded mean is `none` there and `analyze` propagates the undefined
value, while the mean is defined on every non-empty evidence list. -/
theorem empty_retrieval_mean_undefined :
    search [] = []
    ∧ meanOpt ([] : List ℚ) = none
    ∧ (∀ (events : List TimelineEvent) (thr : ℚ) (strict : Bool)
        (oracle : ℕ → OracleResponse),
        analyze events [] thr strict oracle = none)
    ∧ (∀ l : List ℚ, l = [] ∨ (meanOpt l).isSome = true) := by
  refine ⟨rfl, rfl, fun events thr strict oracle => rfl, fun l => ?_⟩
  rcases l with _ | ⟨x, xs⟩
  · exact Or.inl rfl
  · exact Or.inr rfl

/-- Claim C2 (amended): every refusal the pipeline itself produces —
the strict-mode gate firing, or the oracle failing the schema contract
on both attempts — carries empty hypotheses together with a non-null
refusal reason.  (The converse direction of the original claim fails:
see the counterexample, where citation validation drops every oracle
hypothesis and the result has empty hypotheses with a null
refusal reason.) -/
theorem refusal_shape (events : List TimelineEvent) (hits : List RawHit)
    (thr avg : ℚ) (strict : Bool) (oracle : ℕ → OracleResponse) (r : AnalysisResult)
    (hm : meanOpt ((search hits).map Evidence.relevance) = some avg)
    (hr : analyze events hits thr strict oracle = some r)
    (hcause : (strict = true ∧ ((search hits).length < 2 ∨ avg < thr))
      ∨ (schemaValid (oracle 0) = false ∧ schemaValid (oracle 1) = false)) :
    r.hypotheses = [] ∧ r.refusal_reason.isSome = true := by
  simp only [analyze, hm] at hr
  rcases hcause with ⟨hstrict, hg⟩ | ⟨h0, h1⟩
  · subst hstrict
    have hcond : (decide ((search hits).length < 2) || decide (avg < thr)) = true := by
      rcases hg with hg | hg
      · rw [decide_eq_true hg]
        simp
      · rw [decide_eq_true hg]
        simp
    simp only [Bool.true_and, hcond, if_true] at hr
    obtain rfl := Option.some.inj hr
    simp [refusalResult]
  · have hcw : callWithRetry oracle = none := by simp [callWithRetry, h0, h1]
    by_cases hgate :
        (strict && (decide ((search hits).length < 2) || decide (avg < thr))) = true
    · rw [if_pos hgate] at hr
      obtain rfl := Option.some.inj hr
      simp [refusalResult]
    · rw [if_neg hgate] at hr
      rw [hcw] at hr
      obtain rfl := Option.some.inj hr
      simp [schemaFailureResult]

/-- Witness for the amended C2 at the strict-mode gate branch. -/
theorem refusal_shape_witness :
    (refusalResult (sortTimeline []) 1).hypotheses = []
    ∧ (refusalResult (sortTimeline []) 1).refusal_reason.isSome = true :=
  refusal_shape [] [perfectHit] (3/5) 1 true (fun _ => nullResponse)
    (refusalResult (sortTimeline []) 1)
    (by norm_num [meanOpt, search, perfectHit, max_def, min_def])
    (by norm_num [analyze, meanOpt, search, perfectHit, max_def, min_def])
    (Or.inl ⟨rfl, Or.inl (by norm_num [search])⟩)

/-- A schema-valid oracle response whose only hypothesis cites a single
evidence index, so citation validation drops it. -/
def badCitingResponse : OracleResponse :=
  { hypotheses :=
      [{ rank := 1, title := "speculative cause", root_cause := "a guess"
         confidence := 1, evidence_indices := [0], counter_evidence_indices := []
         tests_to_confirm := [], immediate_mitigations := [], long_term_fixes := [] }]
    what_changed := [], recommended_next_steps := []
    confidence_overall := 1, refusal_reason := none }

/-- Claim C2 counterexample: a non-strict run whose oracle answers with
one hypothesis citing only one evidence index produces a result with
empty hypotheses and a null refusal reason, so
`hypotheses = [] ⟺ refusal_reason ≠ null` fails at this input. -/
theorem empty_hypotheses_without_refusal :
    (analyze [] [logHitA, logHitB] (3/5) false (fun _ => badCitingResponse)).map
      (fun r => (r.hypotheses, r.refusal_reason)) = some ([], none) := by
  norm_num [analyze, search, meanOpt, callWithRetry, schemaValid, badCitingResponse,
    logHitA, logHitB, assembleResponse, citesValid, resolveHypothesis, sortTimeline,
    sortBy, max_def, min_def]

/-- Claim C3: every hypothesis surfaced in a returned result resolves
at least 2 evidence citations, and each of them is one of the packaged
retrieval evidence objects; oracle hypotheses failing the citation
contract never reach the result. -/
theorem surfaced_hypotheses_cite (events : List TimelineEvent) (hits : List RawHit)
    (thr : ℚ) (strict : Bool) (oracle : ℕ → OracleResponse) (r : AnalysisResult)
    (h : Hypothesis)
    (hr : analyze events hits thr strict oracle = some r)
    (hh : h ∈ r.hypotheses) :
    2 ≤ h.evidence.length ∧ h.evidence ⊆ search hits := by
  rcases hmv : meanOpt ((search hits).map Evidence.relevance) with _ | avg
  · simp only [analyze, hmv] at hr
    exact absurd hr (by simp)
  · simp only [analyze, hmv] at hr
    by_cases hgate :
        (strict && (decide ((search hits).length < 2) || decide (avg < thr))) = true
    · rw [if_pos hgate] at hr
      obtain rfl := Option.some.inj hr
      simp [refusalResult] at hh
    · rw [if_neg hgate] at hr
      rcases hcw : callWithRetry oracle with _ | resp
      · rw [hcw] at hr
        obtain rfl := Option.some.inj hr
        simp [schemaFailureResult] at hh
      · rw [hcw] at hr
        obtain rfl := Option.some.inj hr
        simp only [assembleResponse] at hh
        have hmem :=
          (sortBy_perm (fun a b : Hypothesis => decide (a.rank ≤ b.rank)) _).mem_iff.mp hh
        simp only [List.mem_map] at hmem
        obtain ⟨oh, hohmem, rfl⟩ := hmem
        have hvalid := (List.mem_filter.mp hohmem).2
        simp only [citesValid, Bool.and_eq_true, decide_eq_true_eq,
          List.all_eq_true] at hvalid
        obtain ⟨hlen2, hrange⟩ := hvalid
        constructor
        · simp only [resolveHypothesis]
          rw [filterMap_get_length (search hits) oh.evidence_indices hrange]
          exact hlen2
        · intro e he
          simp only [resolveHypothesis] at he
          rcases List.mem_filterMap.mp he with ⟨i, _, hget⟩
          exact List.get?_mem hget

def evA : Evidence :=
  { source_id := "order-service"
    excerpt := "ERROR failed to acquire database connection".toList.take 300
    relevance := 4/5, artifact_type := "logs" }

def evB : Evidence :=
  { source_id := "argocd"
    excerpt := "Deployed version v2.4.0".toList.take 300
    relevance := 3/5, artifact_type := "deploy_history" }

/-- A schema-valid oracle response whose hypothesis cites both packaged
evidence indices. -/
def goodResponse : OracleResponse :=
  { hypotheses :=
      [{ rank := 1, title := "Connection pool exhaustion"
         root_cause := "New deploy holds connections", confidence := 1
         evidence_indices := [0, 1], counter_evidence_indices := []
         tests_to_confirm := ["inspect pg_stat_activity"]
         immediate_mitigations := ["rollback v2.4.0"]
         long_term_fixes := ["tune pool size"] }]
    what_changed := ["v2.4.0 deployed"], recommended_next_steps := ["verify rollback"]
    confidence_overall := 1, refusal_reason := none }

def resolvedGoodHypothesis : Hypothesis :=
  { rank := 1, title := "Connection pool exhaustion"
    root_cause := "New deploy holds connections", confidence := 1
    evidence := [evA, evB], counter_evidence := []
    tests_to_confirm := ["inspect pg_stat_activity"]
    immediate_mitigations := ["rollback v2.4.0"]
    long_term_fixes := ["tune pool size"] }

def analyzedResult : AnalysisResult :=
  { timeline_events := [], hypotheses := [resolvedGoodHypothesis]
    what_changed := ["v2.4.0 deployed"], recommended_next_steps := ["verify rollback"]
    confidence_overall := 1, refusal_reason := none }

/-- Witness for C3 on a successful generation with two retrieved
evidence objects, both cited. -/
theorem surfaced_hypotheses_cite_witness :
    2 ≤ resolvedGoodHypothesis.evidence.length
    ∧ resolvedGoodHypothesis.evidence ⊆ search [logHitA, logHitB] :=
  surfaced_hypotheses_cite [] [logHitA, logHitB] (3/5) false (fun _ => goodResponse)
    analyzedResult resolvedGoodHypothesis
    (by
      norm_num [analyze, search, meanOpt, callWithRetry, schemaValid, goodResponse,
        logHitA, logHitB, assembleResponse, citesValid, resolveHypothesis, sortTimeline,
        sortBy, insertBy, analyzedResult, resolvedGoodHypothesis, evA, evB, max_def,
        min_def]
      simp [List.filterMap_cons])
    (by simp [analyzedResult])

/-- A schema-invalid oracle response: the overall confidence 2 lies
outside `[0, 1]`. -/
def invalidResponse : OracleResponse :=
  { hypotheses := [], what_changed := [], recommended_next_steps := []
    confidence_overall := 2, refusal_reason := none }

/-- Claim C5: the pipeline consults only oracle attempts 0 and 1 (one
retry): its result is determined by those two attempts; when attempt 0
is schema-invalid the pipeline behaves exactly as if attempt 1 had been
the only response; and when both attempts are schema-invalid the result
is refusal-shaped — empty hypotheses with a non-null refusal reason —
so no content of the invalid responses is surfaced. -/
theorem schema_retry_once (events : List TimelineEvent) (hits : List RawHit)
    (thr : ℚ) (strict : Bool) :
    (∀ o₁ o₂ : ℕ → OracleResponse, o₁ 0 = o₂ 0 → o₁ 1 = o₂ 1 →
        analyze events hits thr strict o₁ = analyze events hits thr strict o₂)
    ∧ (∀ o : ℕ → OracleResponse, schemaValid (o 0) = false →
        analyze events hits thr strict o
          = analyze events hits thr strict (fun _ => o 1))
    ∧ (∀ (o : ℕ → OracleResponse) (avg : ℚ),
        meanOpt ((search hits).map Evidence.relevance) = some avg →
        schemaValid (o 0) = false → schemaValid (o 1) = false →
        (analyze events hits thr strict o).map
            (fun r => (r.hypotheses, r.refusal_reason.isSome)) = some ([], true)) := by
  refine ⟨?_, ?_, ?_⟩
  · intro o₁ o₂ h0 h1
    have hcw : callWithRetry o₁ = callWithRetry o₂ := by
      simp [callWithRetry, h0, h1]
    simp only [analyze]
    rw [hcw]
  · intro o h0
    have hcw : callWithRetry o = callWithRetry (fun _ => o 1) := by
      rcases hs : schemaValid (o 1) with _ | _ <;> simp [callWithRetry, h0, hs]
    simp only [analyze]
    rw [hcw]
  · intro o avg hm h0 h1
    have hcw : callWithRetry o = none := by simp [callWithRetry, h0, h1]
    simp only [analyze, hm, hcw]
    by_cases hgate :
        (strict && (decide ((search hits).length < 2) || decide (avg < thr))) = true
    · rw [if_pos hgate]
      simp [refusalResult]
    · rw [if_neg hgate]
      simp [schemaFailureResult]

/-- Witness for C5: a persistently schema-invalid oracle degrades this
concrete call to a refusal-shaped result. -/
theorem schema_retry_once_witness :
    (analyze [] [logHitA, logHitB] (3/5) false (fun _ => invalidResponse)).map
      (fun r => (r.hypotheses, r.refusal_reason.isSome)) = some ([], true) :=
  (schema_retry_once [] [logHitA, logHitB] (3/5) false).2.2 (fun _ => invalidResponse)
    (7/10)
    (by norm_num [meanOpt, search, logHitA, logHitB, max_def, min_def])
    (by norm_num [schemaValid, invalidResponse])
    (by norm_num [schemaValid, invalidResponse])

end Incident
